import Mathlib

/-!
Verification of the honk-web local data layer (src/app.js, src/unnamed/part_000).

The data layer is a sql.js (SQLite) database with two tables:

* `plates (plate_text text primary key, score integer not null default 0,
   updated_at text not null default (datetime('now')))`
* `votes (id text primary key, plate_text text not null,
   value integer not null check (value in (-1,1)),
   created_at text not null default (datetime('now')))`

and the operations `ensurePlateRow`, `addVote`, `queryLeaderboard`,
`persistDb`, `initDb`, the reset handler (`resetDbBtn.onclick`), and the
profile store `getUser`/`setUser`/`clearUser` over the idb-keyval blob
store with the two keys `honk_sqlite_v1` (`DB_KEY`) and `honk_user_v1`
(`USER_KEY`).

Shallow embedding conventions:

* JS strings are modelled as lists of code points (`List Nat`); `str`
  converts a Lean string literal to that form for concrete test inputs.
* `String.prototype.trim` / `toUpperCase` are modelled on code points
  (`trimStr`, `toUpperCase`); upper-casing is the ASCII letter map, which
  is what the plate-text domain (A-Z, 0-9, spaces) exercises.
* Tables are lists of rows in insertion (rowid) order; SQL timestamps are
  abstract clock ticks (`Nat`), `uuid()` is an abstract fresh id (`Nat`)
  supplied by the driver state.
* A thrown JS exception is modelled by returning the post-throw global
  database state together with `some` error; sql.js raises the `check`
  constraint of `votes.value` when the insert statement is stepped, i.e.
  after the `update plates` statement already ran, and that ordering is
  kept.
* The sql.js byte image (`db.export()` / `new SQL.Database(bytes)`) is an
  external library format; it is modelled from the spec (see `dbExport`).
-/

/-- Code points of a string literal; JS strings are modelled as `List Nat`. -/
def str (s : String) : List Nat := s.data.map Char.toNat

/-- JS whitespace (WhiteSpace and LineTerminator code points recognised by
`String.prototype.trim`). -/
def isWs (c : Nat) : Bool :=
  decide (c = 9 ∨ c = 10 ∨ c = 11 ∨ c = 12 ∨ c = 13 ∨ c = 32 ∨
    c = 160 ∨ c = 8232 ∨ c = 8233 ∨ c = 65279)

/-- ASCII letter upper-casing of one code point, modelling
`String.prototype.toUpperCase` on the plate-text alphabet. -/
def upperChar (c : Nat) : Nat :=
  if 97 ≤ c ∧ c ≤ 122 then c - 32 else c

/-- `s.trim()`: drop leading and trailing whitespace (interior whitespace
is kept). -/
def trimStr (s : List Nat) : List Nat :=
  ((s.dropWhile isWs).reverse.dropWhile isWs).reverse

/-- `s.toUpperCase()` on code points. -/
def toUpperCase (s : List Nat) : List Nat := s.map upperChar

/-- Plate-text normalization, `plate.trim().toUpperCase()`
(src/app.js line 247). -/
def normalizePlate (s : List Nat) : List Nat := toUpperCase (trimStr s)

/-- A row of the `plates` table. -/
structure PlateRow where
  plate_text : List Nat
  score : Int
  updated_at : Nat
deriving DecidableEq

/-- A row of the `votes` table. -/
structure VoteRow where
  id : Nat
  plate_text : List Nat
  value : Int
  created_at : Nat
deriving DecidableEq

/-- The relational store: both tables, rows in insertion order. -/
structure DBState where
  plates : List PlateRow
  votes : List VoteRow
deriving DecidableEq

/-- The empty-schema store created by first-boot `initDb` (and by reset). -/
def freshDb : DBState := { plates := [], votes := [] }

/-- Errors thrown by the data layer: `addVote`'s explicit
`throw new Error("Plate required")` (the spec's `InvalidInput`), and the
sql.js exception raised by the `check (value in (-1,1))` constraint on
`votes` (the spec's `ConstraintViolation`). -/
inductive DbError where
  | plateRequired
  | constraintViolation
deriving DecidableEq

/-- `ensurePlateRow` (src/app.js lines 221-241): select the row by
`plate_text`; if absent, insert it with `score = 0`. -/
def ensurePlateRow (txPlate : List Nat) (now : Nat) (db : DBState) : DBState :=
  if db.plates.any (fun r => decide (r.plate_text = txPlate)) then db
  else { db with plates := db.plates ++ [⟨txPlate, 0, now⟩] }

/-- Effect of `update plates set score = score + $v, updated_at = $t
where plate_text = $p` on one row. -/
def updRow (txPlate : List Nat) (v : Int) (now : Nat) (r : PlateRow) :
    PlateRow :=
  if r.plate_text = txPlate then ⟨r.plate_text, r.score + v, now⟩ else r

/-- The `update plates set score = score + $v, updated_at = $t where
plate_text = $p` statement of `addVote`. -/
def updatePlates (txPlate : List Nat) (v : Int) (now : Nat)
    (l : List PlateRow) : List PlateRow :=
  l.map (updRow txPlate v now)

/-- `addVote` (src/app.js lines 245-271): normalizePlate, reject empty plates,
ensure the plates row, apply the score delta, then insert the vote row.
The `check (value in (-1,1))` constraint fires when the vote insert is
stepped, after the update already ran; the returned state is the global
`db` after the call, paired with the thrown error if any. -/
def addVote (plate : List Nat) (value : Int) (vid : Nat) (now : Nat)
    (db : DBState) : DBState × Option DbError :=
  let txPlate := normalizePlate plate
  if txPlate = [] then (db, some .plateRequired)
  else
    let db1 := ensurePlateRow txPlate now db
    let db2 := { db1 with plates := updatePlates txPlate value now db1.plates }
    if value = 1 ∨ value = -1 then
      ({ db2 with votes := db2.votes ++ [⟨vid, txPlate, value, now⟩] }, none)
    else
      (db2, some .constraintViolation)

/-- Stable descending insertion by score: an element is placed after the
rows whose score is strictly greater and before tied rows that occurred
later, modelling `order by score desc` with insertion-order tie-break. -/
def insertDesc (r : PlateRow) : List PlateRow → List PlateRow
  | [] => [r]
  | x :: xs => if r.score < x.score then x :: insertDesc r xs else r :: x :: xs

/-- Stable sort by score descending. -/
def sortDesc : List PlateRow → List PlateRow
  | [] => []
  | x :: xs => insertDesc x (sortDesc xs)

/-- Stable ascending insertion by score, modelling `order by score asc`. -/
def insertAsc (r : PlateRow) : List PlateRow → List PlateRow
  | [] => [r]
  | x :: xs => if x.score < r.score then x :: insertAsc r xs else r :: x :: xs

/-- Stable sort by score ascending. -/
def sortAsc : List PlateRow → List PlateRow
  | [] => []
  | x :: xs => insertAsc x (sortAsc xs)

/-- The `best` half of `queryLeaderboard` (src/app.js lines 275-295):
`select plate_text, score from plates where score > 0 order by score desc
limit 50`, with insertion-order tie-break. -/
def topPositive (db : DBState) : List (List Nat × Int) :=
  ((sortDesc (db.plates.filter (fun r => decide (0 < r.score)))).take 50).map
    (fun r => (r.plate_text, r.score))

/-- The `worst` half of `queryLeaderboard`:
`select plate_text, score from plates where score < 0 order by score asc
limit 50`. -/
def topNegative (db : DBState) : List (List Nat × Int) :=
  ((sortAsc (db.plates.filter (fun r => decide (r.score < 0)))).take 50).map
    (fun r => (r.plate_text, r.score))

/-- Zig-zag encoding of a SQL integer into a natural, used by the modelled
byte image. -/
def encInt (i : Int) : Nat :=
  if 0 ≤ i then 2 * i.toNat else 2 * (-i).toNat - 1

/-- Decoder for `encInt`. -/
def decInt (n : Nat) : Int :=
  if n % 2 = 0 then ((n / 2 : Nat) : Int) else -(((n + 1) / 2 : Nat) : Int)

/-- One serialized `plates` row: length-prefixed `plate_text`, then the
encoded score and the timestamp. -/
def encPlateRow (r : PlateRow) : List Nat :=
  r.plate_text.length :: r.plate_text ++ [encInt r.score, r.updated_at]

/-- One serialized `votes` row. -/
def encVoteRow (v : VoteRow) : List Nat :=
  v.id :: v.plate_text.length :: v.plate_text ++ [encInt v.value, v.created_at]

/-- Serialize a list of `plates` rows in front of a tail. -/
def encPlates : List PlateRow → List Nat → List Nat
  | [], tail => tail
  | r :: rs, tail => encPlateRow r ++ encPlates rs tail

/-- Serialize a list of `votes` rows in front of a tail. -/
def encVotes : List VoteRow → List Nat → List Nat
  | [], tail => tail
  | v :: vs, tail => encVoteRow v ++ encVotes vs tail

/-- Modelled from the spec: `db.export()` of the relational engine
(sql.js), whose byte format is an external library detail missing from
src/. §6 requires only that `open(bytes)` of a prior `persist()` output
"reproduces an identical row-for-row state", so the image is modelled as
an injective encoding of both tables: row counts followed by the
serialized rows. -/
def dbExport (db : DBState) : List Nat :=
  db.plates.length ::
    encPlates db.plates (db.votes.length :: encVotes db.votes [])

/-- Decode one `plates` row, returning the row and the remaining bytes. -/
def decPlateRow : List Nat → Option (PlateRow × List Nat)
  | [] => none
  | len :: rest =>
    if (rest.take len).length = len then
      match rest.drop len with
      | sc :: ua :: r2 => some (⟨rest.take len, decInt sc, ua⟩, r2)
      | _ => none
    else none

/-- Decode one `votes` row. -/
def decVoteRow : List Nat → Option (VoteRow × List Nat)
  | [] => none
  | _ :: [] => none
  | vid :: len :: rest =>
    if (rest.take len).length = len then
      match rest.drop len with
      | vl :: ca :: r2 => some (⟨vid, rest.take len, decInt vl, ca⟩, r2)
      | _ => none
    else none

/-- Decode `n` `plates` rows. -/
def decPlates : Nat → List Nat → Option (List PlateRow × List Nat)
  | 0, l => some ([], l)
  | n + 1, l =>
    match decPlateRow l with
    | some (r, l1) =>
      match decPlates n l1 with
      | some (rs, l2) => some (r :: rs, l2)
      | none => none
    | none => none

/-- Decode `n` `votes` rows. -/
def decVotes : Nat → List Nat → Option (List VoteRow × List Nat)
  | 0, l => some ([], l)
  | n + 1, l =>
    match decVoteRow l with
    | some (v, l1) =>
      match decVotes n l1 with
      | some (vs, l2) => some (v :: vs, l2)
      | none => none
    | none => none

/-- Modelled from the spec: parsing a byte image back into table contents
(`new SQL.Database(bytes)`, the restore direction of §6's round-trip
contract). `none` models an image the engine cannot parse
(`CorruptImage`). -/
def dbImport (b : List Nat) : Option DBState :=
  match b with
  | [] => none
  | pc :: rest =>
    match decPlates pc rest with
    | some (ps, vc :: rest2) =>
      match decVotes vc rest2 with
      | some (vs, []) => some ⟨ps, vs⟩
      | _ => none
    | _ => none

/-- A value found under `DB_KEY` in idb-keyval at boot: a `Uint8Array`
image, a non-`Uint8Array` value carrying a `.buffer` (converted with
`new Uint8Array(saved)`), or any other value (no usable byte image). -/
inductive SavedVal where
  | bytes (b : List Nat)
  | bufferLike (b : List Nat)
  | other
deriving DecidableEq

/-- The idb-keyval blob store restricted to the two keys the app uses:
`DB_KEY` (`honk_sqlite_v1`) and `USER_KEY` (`honk_user_v1`). -/
structure Blob where
  dbKey : Option SavedVal
  userKey : Option (List Nat)
deriving DecidableEq

/-- `persistDb` (src/app.js lines 79-85): write `db.export()` under
`DB_KEY`, overwriting any prior value; the user key is untouched. -/
def persistDb (db : DBState) (blob : Blob) : Blob :=
  { blob with dbKey := some (.bytes (dbExport db)) }

/-- `getUser` (src/app.js line 109): read `USER_KEY` (`null` ↦ `none`). -/
def getUser (blob : Blob) : Option (List Nat) := blob.userKey

/-- The database handle produced by `initDb`: either a handle opened over
a stored image (`parsed = none` models an image the engine cannot parse,
surfacing `CorruptImage` on first use), or the fresh-schema store. -/
inductive BootDb where
  | fromImage (parsed : Option DBState)
  | freshInit
deriving DecidableEq

/-- The branch structure of `initDb` (src/app.js lines 19-75): a
`Uint8Array` value or a `.buffer`-carrying value is handed to
`new SQL.Database(...)` unconditionally; anything else (absent value
included) falls back to creating the fresh empty schema. -/
def initDbLoad : Option SavedVal → BootDb
  | some (.bytes b) => .fromImage (dbImport b)
  | some (.bufferLike b) => .fromImage (dbImport b)
  | some .other => .freshInit
  | none => .freshInit

/-- The public operations of §6: `recordVote` (`addVote` + persist on
success), the read-only leaderboard query, and `reset`. -/
inductive Op where
  | vote (plate : List Nat) (delta : Int)
  | queryOp
  | resetOp
deriving DecidableEq

/-- The single-actor session state: the global `db` handle, the blob
store, and the abstract uuid/clock supplies. -/
structure Sys where
  db : DBState
  blob : Blob
  nextId : Nat
  clock : Nat
deriving DecidableEq

/-- One public operation. A successful vote persists (`votePlus.onclick`
/ `voteMinus.onclick` await `persistDb()` after `addVote`); a failed vote
leaves the blob store alone. `resetDbBtn.onclick` (src/app.js lines
459-479) rebuilds the empty schema and persists unconditionally; the
leaderboard query is a pure read. -/
def applyOp (s : Sys) : Op → Sys
  | .vote p d =>
    let r := addVote p d s.nextId s.clock s.db
    match r.2 with
    | none =>
      { db := r.1, blob := persistDb r.1 s.blob,
        nextId := s.nextId + 1, clock := s.clock + 1 }
    | some _ =>
      { db := r.1, blob := s.blob,
        nextId := s.nextId + 1, clock := s.clock + 1 }
  | .queryOp => s
  | .resetOp =>
    { s with db := freshDb, blob := persistDb freshDb s.blob,
             clock := s.clock + 1 }

/-- Run a sequence of public operations. -/
def runOps (ops : List Op) (s : Sys) : Sys := ops.foldl applyOp s

/-- First-boot session state: fresh schema, already persisted by
`initDb`'s fresh branch, no profile. -/
def initSys : Sys :=
  { db := freshDb, blob := ⟨some (.bytes (dbExport freshDb)), none⟩,
    nextId := 0, clock := 0 }

/-- `true` unless the operation is a vote with a delta outside {+1, -1}. -/
def validOp : Op → Bool
  | .vote _ d => decide (d = 1 ∨ d = -1)
  | _ => true

/-- Every vote in the sequence carries a delta in {+1, -1}. -/
def ValidOps (ops : List Op) : Prop := ∀ op ∈ ops, validOp op = true

instance : DecidablePred ValidOps := fun ops =>
  List.decidableBAll (fun op => validOp op = true) ops

/-- Sum of the `score` column over the `plates` rows whose `plate_text`
is `t` (with the primary key unique this is the row's score, and `0` when
the row is absent). -/
def sumScores : List PlateRow → List Nat → Int
  | [], _ => 0
  | r :: rs, t => (if r.plate_text = t then r.score else 0) + sumScores rs t

/-- Sum of the `value` column over the `votes` rows whose `plate_text` is
`t`. -/
def sumVotes : List VoteRow → List Nat → Int
  | [], _ => 0
  | v :: vs, t => (if v.plate_text = t then v.value else 0) + sumVotes vs t

/-- Number of `plates` rows keyed `t`. -/
def cntPlate : List PlateRow → List Nat → Nat
  | [], _ => 0
  | r :: rs, t => (if r.plate_text = t then 1 else 0) + cntPlate rs t

/-- Deltas of a vote sequence, all in {+1, -1}. -/
def ValidDeltas (ds : List Int) : Prop := ∀ d ∈ ds, d = 1 ∨ d = -1

instance : DecidablePred ValidDeltas := fun ds =>
  List.decidableBAll (fun d => d = 1 ∨ d = -1) ds

/-- A sequence of read-only leaderboard queries. -/
def QueriesOnly (qs : List Op) : Prop := ∀ q ∈ qs, q = Op.queryOp

instance : DecidablePred QueriesOnly := fun qs =>
  List.decidableBAll (fun q => q = Op.queryOp) qs

theorem dropWhile_idem (p : α → Bool) (l : List α) :
    (l.dropWhile p).dropWhile p = l.dropWhile p := by
  induction l with
  | nil => rfl
  | cons a l ih =>
    by_cases h : p a
    · simp [List.dropWhile_cons, h, ih]
    · simp [List.dropWhile_cons, h]

theorem dropWhile_append_single (p : α → Bool) (c : α) (hc : p c = false)
    (xs : List α) : (xs ++ [c]).dropWhile p = xs.dropWhile p ++ [c] := by
  induction xs with
  | nil => simp [List.dropWhile_cons, hc]
  | cons a xs ih =>
    by_cases h : p a
    · simp [List.dropWhile_cons, h, ih]
    · simp [List.dropWhile_cons, h]

theorem dropWhile_eq_self_of_head (p : α → Bool) (c : α) (t : List α)
    (hc : p c = false) : (c :: t).dropWhile p = c :: t := by
  simp [List.dropWhile_cons, hc]

/-- Dropping leading whitespace again after a trailing trim is a no-op,
provided the list already had no leading whitespace. -/
theorem dropWhile_trimEnd (x : List Nat) (hx : x.dropWhile isWs = x) :
    ((x.reverse.dropWhile isWs).reverse).dropWhile isWs =
      (x.reverse.dropWhile isWs).reverse := by
  cases x with
  | nil => rfl
  | cons c t =>
    have hc : isWs c = false := by
      by_cases h : isWs c
      · exfalso
        rw [List.dropWhile_cons, if_pos h] at hx
        have hlen := (List.dropWhile_sublist (l := t) isWs).length_le
        rw [hx] at hlen
        simp at hlen
      · simpa using h
    rw [List.reverse_cons, dropWhile_append_single isWs c hc,
      List.reverse_append]
    simp only [List.reverse_cons, List.reverse_nil, List.nil_append,
      List.singleton_append]
    exact dropWhile_eq_self_of_head isWs c _ hc

/-- `trim()` is idempotent. -/
theorem trimStr_idem (l : List Nat) : trimStr (trimStr l) = trimStr l := by
  unfold trimStr
  have h1 : (((l.dropWhile isWs).reverse.dropWhile isWs).reverse).dropWhile
      isWs = ((l.dropWhile isWs).reverse.dropWhile isWs).reverse :=
    dropWhile_trimEnd (l.dropWhile isWs) (dropWhile_idem isWs l)
  rw [h1, List.reverse_reverse, dropWhile_idem]

/-- The ASCII upper-case map is idempotent. -/
theorem upperChar_idem (c : Nat) : upperChar (upperChar c) = upperChar c := by
  by_cases h : 97 ≤ c ∧ c ≤ 122
  · have h1 : upperChar c = c - 32 := by rw [upperChar, if_pos h]
    rw [h1, upperChar, if_neg (by omega)]
  · have h1 : upperChar c = c := by rw [upperChar, if_neg h]
    rw [h1]
    exact h1

/-- Code points in the letter/digit band are not whitespace. -/
theorem isWs_false_of_alpha (c : Nat) (h1 : 65 ≤ c) (h2 : c ≤ 122) :
    isWs c = false := by
  simp only [isWs, decide_eq_false_iff_not]
  omega

/-- Upper-casing never turns whitespace into non-whitespace or back. -/
theorem isWs_upperChar (c : Nat) : isWs (upperChar c) = isWs c := by
  unfold upperChar
  split
  · rename_i h
    rw [isWs_false_of_alpha (c - 32) (by omega) (by omega),
      isWs_false_of_alpha c (by omega) (by omega)]
  · rfl

theorem dropWhile_isWs_map_upper (x : List Nat) :
    (x.map upperChar).dropWhile isWs = (x.dropWhile isWs).map upperChar := by
  induction x with
  | nil => rfl
  | cons c t ih =>
    simp only [List.map_cons, List.dropWhile_cons, isWs_upperChar]
    by_cases h : isWs c <;> simp [h, ih]

/-- Trimming commutes with upper-casing. -/
theorem trimStr_map_upper (x : List Nat) :
    trimStr (x.map upperChar) = (trimStr x).map upperChar := by
  unfold trimStr
  rw [dropWhile_isWs_map_upper, ← List.map_reverse, dropWhile_isWs_map_upper,
    ← List.map_reverse]


theorem sumScores_append (l : List PlateRow) (r : PlateRow) (t : List Nat) :
    sumScores (l ++ [r]) t
      = sumScores l t + (if r.plate_text = t then r.score else 0) := by
  induction l with
  | nil => simp [sumScores]
  | cons a l ih =>
    show (if a.plate_text = t then a.score else 0) + sumScores (l ++ [r]) t
        = ((if a.plate_text = t then a.score else 0) + sumScores l t)
          + (if r.plate_text = t then r.score else 0)
    rw [ih]
    ring

theorem sumVotes_append (l : List VoteRow) (v : VoteRow) (t : List Nat) :
    sumVotes (l ++ [v]) t
      = sumVotes l t + (if v.plate_text = t then v.value else 0) := by
  induction l with
  | nil => simp [sumVotes]
  | cons a l ih =>
    show (if a.plate_text = t then a.value else 0) + sumVotes (l ++ [v]) t
        = ((if a.plate_text = t then a.value else 0) + sumVotes l t)
          + (if v.plate_text = t then v.value else 0)
    rw [ih]
    ring

theorem cntPlate_append (l : List PlateRow) (r : PlateRow) (t : List Nat) :
    cntPlate (l ++ [r]) t
      = cntPlate l t + (if r.plate_text = t then 1 else 0) := by
  induction l with
  | nil => simp [cntPlate]
  | cons a l ih =>
    show (if a.plate_text = t then 1 else 0) + cntPlate (l ++ [r]) t
        = ((if a.plate_text = t then 1 else 0) + cntPlate l t)
          + (if r.plate_text = t then 1 else 0)
    rw [ih]
    ring

/-- The score update keeps each row's `plate_text`. -/
theorem updRow_key (tx : List Nat) (d : Int) (now : Nat) (a : PlateRow) :
    (updRow tx d now a).plate_text = a.plate_text := by
  unfold updRow
  split <;> rfl

theorem updRow_score_self (tx : List Nat) (d : Int) (now : Nat) (a : PlateRow)
    (h : a.plate_text = tx) : (updRow tx d now a).score = a.score + d := by
  rw [updRow, if_pos h]

theorem updRow_of_ne (tx : List Nat) (d : Int) (now : Nat) (a : PlateRow)
    (h : ¬a.plate_text = tx) : updRow tx d now a = a := by
  rw [updRow, if_neg h]

theorem cntPlate_updatePlates (tx : List Nat) (d : Int) (now : Nat)
    (l : List PlateRow) (t : List Nat) :
    cntPlate (updatePlates tx d now l) t = cntPlate l t := by
  induction l with
  | nil => rfl
  | cons a l ih =>
    simp only [updatePlates, List.map_cons, cntPlate, updRow_key] at ih ⊢
    rw [ih]

theorem sumScores_updatePlates_self (tx : List Nat) (d : Int) (now : Nat)
    (l : List PlateRow) :
    sumScores (updatePlates tx d now l) tx
      = sumScores l tx + d * (cntPlate l tx : Int) := by
  induction l with
  | nil => simp [updatePlates, sumScores, cntPlate]
  | cons a l ih =>
    simp only [updatePlates, List.map_cons, sumScores, cntPlate,
      updRow_key] at ih ⊢
    by_cases h : a.plate_text = tx
    · rw [if_pos h, if_pos h, updRow_score_self tx d now a h, ih]
      push_cast
      rw [if_pos h]
      ring
    · rw [if_neg h, if_neg h, ih]
      push_cast
      rw [if_neg h]
      ring

theorem sumScores_updatePlates_ne (tx : List Nat) (d : Int) (now : Nat)
    (l : List PlateRow) (t : List Nat) (ht : t ≠ tx) :
    sumScores (updatePlates tx d now l) t = sumScores l t := by
  induction l with
  | nil => rfl
  | cons a l ih =>
    simp only [updatePlates, List.map_cons, sumScores, updRow_key] at ih ⊢
    by_cases h : a.plate_text = t
    · have hne : ¬a.plate_text = tx := fun hh => ht ((h.symm.trans hh))
      rw [updRow_of_ne tx d now a hne, ih]
    · rw [if_neg h, if_neg h, ih]

theorem anyKey_updatePlates (tx : List Nat) (d : Int) (now : Nat)
    (l : List PlateRow) (t : List Nat) :
    ((updatePlates tx d now l).any fun r => decide (r.plate_text = t))
      = l.any fun r => decide (r.plate_text = t) := by
  induction l with
  | nil => rfl
  | cons a l ih =>
    simp only [updatePlates, List.map_cons, List.any_cons, updRow_key]
      at ih ⊢
    rw [ih]

theorem ensure_votes (tx : List Nat) (now : Nat) (db : DBState) :
    (ensurePlateRow tx now db).votes = db.votes := by
  unfold ensurePlateRow
  split <;> rfl

theorem anyKey_eq_false_iff (l : List PlateRow) (t : List Nat) :
    (l.any fun r => decide (r.plate_text = t)) = false ↔ cntPlate l t = 0 := by
  induction l with
  | nil => simp [cntPlate]
  | cons a l ih =>
    simp only [List.any_cons, cntPlate, Bool.or_eq_false_iff,
      decide_eq_false_iff_not]
    by_cases h : a.plate_text = t
    · simp [h]
    · simp [h, ih]

theorem anyKey_eq_true_iff (l : List PlateRow) (t : List Nat) :
    (l.any fun r => decide (r.plate_text = t)) = true ↔ cntPlate l t ≠ 0 := by
  have hf := anyKey_eq_false_iff l t
  cases hb : (l.any fun r => decide (r.plate_text = t)) <;>
    simp [hb] at hf ⊢ <;> omega

theorem cntPlate_ensure_self (tx : List Nat) (now : Nat) (db : DBState)
    (h : cntPlate db.plates tx ≤ 1) :
    cntPlate (ensurePlateRow tx now db).plates tx = 1 := by
  unfold ensurePlateRow
  split
  · rename_i ha
    have := (anyKey_eq_true_iff db.plates tx).1 ha
    omega
  · rename_i ha
    have h0 : cntPlate db.plates tx = 0 :=
      (anyKey_eq_false_iff db.plates tx).1 (by simpa using ha)
    show cntPlate (db.plates ++ [⟨tx, 0, now⟩]) tx = 1
    rw [cntPlate_append, h0, if_pos rfl]

theorem cntPlate_ensure_ne (tx : List Nat) (now : Nat) (db : DBState)
    (t : List Nat) (ht : t ≠ tx) :
    cntPlate (ensurePlateRow tx now db).plates t = cntPlate db.plates t := by
  unfold ensurePlateRow
  split
  · rfl
  · show cntPlate (db.plates ++ [⟨tx, 0, now⟩]) t = cntPlate db.plates t
    rw [cntPlate_append, if_neg (fun hh => ht hh.symm)]
    omega

theorem cntPlate_ensure_le (tx : List Nat) (now : Nat) (db : DBState)
    (h : ∀ u, cntPlate db.plates u ≤ 1) (u : List Nat) :
    cntPlate (ensurePlateRow tx now db).plates u ≤ 1 := by
  by_cases hu : u = tx
  · rw [hu, cntPlate_ensure_self tx now db (h tx)]
  · rw [cntPlate_ensure_ne tx now db u hu]
    exact h u

theorem sumScores_ensure (tx : List Nat) (now : Nat) (db : DBState)
    (t : List Nat) :
    sumScores (ensurePlateRow tx now db).plates t = sumScores db.plates t := by
  unfold ensurePlateRow
  split
  · rfl
  · show sumScores (db.plates ++ [⟨tx, 0, now⟩]) t = sumScores db.plates t
    rw [sumScores_append]
    simp

theorem anyKey_ensure_self (tx : List Nat) (now : Nat) (db : DBState) :
    ((ensurePlateRow tx now db).plates.any
      fun r => decide (r.plate_text = tx)) = true := by
  unfold ensurePlateRow
  split
  · rename_i ha
    exact ha
  · show ((db.plates ++ [(⟨tx, 0, now⟩ : PlateRow)]).any
      fun r => decide (r.plate_text = tx)) = true
    simp [List.any_append]

theorem anyKey_ensure_ne (tx : List Nat) (now : Nat) (db : DBState)
    (t : List Nat) (ht : t ≠ tx) :
    ((ensurePlateRow tx now db).plates.any fun r => decide (r.plate_text = t))
      = db.plates.any fun r => decide (r.plate_text = t) := by
  unfold ensurePlateRow
  split
  · rfl
  · show ((db.plates ++ [(⟨tx, 0, now⟩ : PlateRow)]).any
      fun r => decide (r.plate_text = t)) = _
    simp only [List.any_append, List.any_cons, List.any_nil]
    have : decide ((⟨tx, 0, now⟩ : PlateRow).plate_text = t) = false := by
      simpa using fun hh => ht hh.symm
    rw [this]
    simp

/-- The data-layer invariant preserved by every public operation: the
primary key of `plates` is unique, every score is the sum of the matching
vote values, and a plate row exists exactly when a matching vote row
does. -/
def GoodDb (db : DBState) : Prop :=
  (∀ t, cntPlate db.plates t ≤ 1) ∧
  (∀ t, sumScores db.plates t = sumVotes db.votes t) ∧
  (∀ t, (db.plates.any fun r => decide (r.plate_text = t)) =
        (db.votes.any fun v => decide (v.plate_text = t)))

theorem goodDb_fresh : GoodDb freshDb := by
  refine ⟨fun t => ?_, fun t => rfl, fun t => rfl⟩
  show cntPlate [] t ≤ 1
  simp [cntPlate]

/-- Shape of a successful `addVote` call. -/
theorem addVote_ok (p : List Nat) (d : Int) (vid now : Nat) (db : DBState)
    (hp : normalizePlate p ≠ []) (hd : d = 1 ∨ d = -1) :
    addVote p d vid now db =
      ({ plates := updatePlates (normalizePlate p) d now
           (ensurePlateRow (normalizePlate p) now db).plates,
         votes := db.votes ++ [⟨vid, normalizePlate p, d, now⟩] }, none) := by
  simp only [addVote]
  rw [if_neg hp, if_pos hd, ensure_votes]

/-- Shape of an `addVote` call rejected by the `check` constraint: the
update has already run when the vote insert fails. -/
theorem addVote_badDelta (p : List Nat) (d : Int) (vid now : Nat)
    (db : DBState) (hp : normalizePlate p ≠ []) (hd : ¬(d = 1 ∨ d = -1)) :
    addVote p d vid now db =
      ({ plates := updatePlates (normalizePlate p) d now
           (ensurePlateRow (normalizePlate p) now db).plates,
         votes := db.votes }, some DbError.constraintViolation) := by
  simp only [addVote]
  rw [if_neg hp, if_neg hd, ensure_votes]

/-- Shape of an `addVote` call rejected by the empty-plate guard: nothing
has run yet. -/
theorem addVote_empty (p : List Nat) (d : Int) (vid now : Nat)
    (db : DBState) (hp : normalizePlate p = []) :
    addVote p d vid now db = (db, some DbError.plateRequired) := by
  simp only [addVote]
  rw [if_pos hp]

/-- The resulting global `db` of a vote operation is `addVote`'s state,
whether or not the call threw. -/
theorem applyOp_vote_db (s : Sys) (p : List Nat) (d : Int) :
    (applyOp s (Op.vote p d)).db = (addVote p d s.nextId s.clock s.db).1 := by
  simp only [applyOp]
  cases h : (addVote p d s.nextId s.clock s.db).2 <;> simp [h]

theorem goodDb_addVote (p : List Nat) (d : Int) (vid now : Nat)
    (db : DBState) (hd : d = 1 ∨ d = -1) (hg : GoodDb db) :
    GoodDb (addVote p d vid now db).1 := by
  by_cases hp : normalizePlate p = []
  · rw [addVote_empty p d vid now db hp]
    exact hg
  · rw [addVote_ok p d vid now db hp hd]
    obtain ⟨hc, hs, he⟩ := hg
    refine ⟨fun t => ?_, fun t => ?_, fun t => ?_⟩
    · show cntPlate (updatePlates (normalizePlate p) d now
        (ensurePlateRow (normalizePlate p) now db).plates) t ≤ 1
      rw [cntPlate_updatePlates]
      exact cntPlate_ensure_le (normalizePlate p) now db hc t
    · show sumScores (updatePlates (normalizePlate p) d now
          (ensurePlateRow (normalizePlate p) now db).plates) t
        = sumVotes (db.votes ++ [⟨vid, normalizePlate p, d, now⟩]) t
      rw [sumVotes_append]
      by_cases ht : t = normalizePlate p
      · rw [ht, sumScores_updatePlates_self,
          cntPlate_ensure_self (normalizePlate p) now db
            (hc (normalizePlate p)),
          sumScores_ensure, hs (normalizePlate p), if_pos rfl]
        push_cast
        ring
      · rw [sumScores_updatePlates_ne _ _ _ _ _ ht, sumScores_ensure,
          hs t, if_neg (fun hh => ht hh.symm)]
        ring
    · show ((updatePlates (normalizePlate p) d now
            (ensurePlateRow (normalizePlate p) now db).plates).any
          fun r => decide (r.plate_text = t))
        = (db.votes ++ [(⟨vid, normalizePlate p, d, now⟩ : VoteRow)]).any
            fun v => decide (v.plate_text = t)
      rw [anyKey_updatePlates]
      by_cases ht : t = normalizePlate p
      · rw [ht, anyKey_ensure_self]
        simp [List.any_append]
      · rw [anyKey_ensure_ne _ _ _ _ ht]
        simp only [List.any_append, List.any_cons, List.any_nil]
        have hrow : decide ((⟨vid, normalizePlate p, d, now⟩ :
            VoteRow).plate_text = t) = false := by
          simpa using fun hh => ht hh.symm
        rw [hrow]
        simp [he t]

theorem goodDb_applyOp (s : Sys) (op : Op) (hv : validOp op = true)
    (hg : GoodDb s.db) : GoodDb (applyOp s op).db := by
  cases op with
  | vote p d =>
    rw [applyOp_vote_db]
    exact goodDb_addVote p d s.nextId s.clock s.db
      (by simpa [validOp] using hv) hg
  | queryOp => exact hg
  | resetOp => exact goodDb_fresh

theorem goodDb_runOps (ops : List Op) (hops : ValidOps ops) :
    ∀ s : Sys, GoodDb s.db → GoodDb (runOps ops s).db := by
  induction ops with
  | nil => exact fun s h => h
  | cons op ops ih =>
    intro s h
    have hstep : runOps (op :: ops) s = runOps ops (applyOp s op) := rfl
    rw [hstep]
    exact ih (fun o ho => hops o (List.mem_cons_of_mem op ho))
      (applyOp s op)
      (goodDb_applyOp s op (hops op (List.mem_cons_self op ops)) h)

/-- Running a vote sequence for a fixed normalized plate adds the deltas
to the vote sum of that plate. -/
theorem sumVotes_voteRun (p : List Nat) (hnorm : normalizePlate p = p)
    (hne : p ≠ []) :
    ∀ ds : List Int, ValidDeltas ds → ∀ s : Sys,
      sumVotes (runOps (ds.map (fun d => Op.vote p d)) s).db.votes p
        = sumVotes s.db.votes p + ds.sum := by
  intro ds
  induction ds with
  | nil =>
    intro _ s
    simp [runOps]
  | cons d ds ih =>
    intro hds s
    have hd : d = 1 ∨ d = -1 := hds d (List.mem_cons_self d ds)
    have hds2 : ValidDeltas ds := fun x hx => hds x (List.mem_cons_of_mem d hx)
    have hstep : runOps ((d :: ds).map (fun x => Op.vote p x)) s
        = runOps (ds.map (fun x => Op.vote p x)) (applyOp s (Op.vote p d)) :=
      rfl
    rw [hstep, ih hds2 (applyOp s (Op.vote p d))]
    have hdb : (applyOp s (Op.vote p d)).db
        = { plates := updatePlates (normalizePlate p) d s.clock
              (ensurePlateRow (normalizePlate p) s.clock s.db).plates,
            votes := s.db.votes ++
              [⟨s.nextId, normalizePlate p, d, s.clock⟩] } := by
      rw [applyOp_vote_db,
        addVote_ok p d s.nextId s.clock s.db (by rw [hnorm]; exact hne) hd]
    rw [hdb]
    show sumVotes (s.db.votes ++ [⟨s.nextId, normalizePlate p, d, s.clock⟩]) p
        + ds.sum = sumVotes s.db.votes p + (d :: ds).sum
    rw [sumVotes_append, hnorm, if_pos rfl, List.sum_cons]
    ring

theorem decInt_encInt (i : Int) : decInt (encInt i) = i := by
  unfold encInt decInt
  by_cases h : 0 ≤ i
  · rw [if_pos h]
    have h2 : 2 * i.toNat % 2 = 0 := by omega
    rw [if_pos h2]
    omega
  · rw [if_neg h]
    have h1 : 1 ≤ (-i).toNat := by omega
    have h2 : ¬(2 * (-i).toNat - 1) % 2 = 0 := by omega
    rw [if_neg h2]
    omega

theorem decPlateRow_enc (r : PlateRow) (tail : List Nat) :
    decPlateRow (encPlateRow r ++ tail) = some (r, tail) := by
  have hshape : encPlateRow r ++ tail
      = r.plate_text.length ::
          (r.plate_text ++ (encInt r.score :: r.updated_at :: tail)) := by
    simp [encPlateRow]
  rw [hshape]
  simp only [decPlateRow]
  rw [List.take_left, List.drop_left, if_pos rfl]
  simp only [decInt_encInt]

theorem decVoteRow_enc (v : VoteRow) (tail : List Nat) :
    decVoteRow (encVoteRow v ++ tail) = some (v, tail) := by
  have hshape : encVoteRow v ++ tail
      = v.id :: v.plate_text.length ::
          (v.plate_text ++ (encInt v.value :: v.created_at :: tail)) := by
    simp [encVoteRow]
  rw [hshape]
  simp only [decVoteRow]
  rw [List.take_left, List.drop_left, if_pos rfl]
  simp only [decInt_encInt]

theorem decPlates_enc (rs : List PlateRow) :
    ∀ tail : List Nat, decPlates rs.length (encPlates rs tail)
      = some (rs, tail) := by
  induction rs with
  | nil => intro tail; rfl
  | cons r rs ih =>
    intro tail
    show decPlates (rs.length + 1) (encPlateRow r ++ encPlates rs tail)
      = some (r :: rs, tail)
    simp only [decPlates]
    rw [decPlateRow_enc]
    show (match decPlates rs.length (encPlates rs tail) with
      | some (rs2, l2) => some (r :: rs2, l2)
      | none => none) = some (r :: rs, tail)
    rw [ih tail]

theorem decVotes_enc (vs : List VoteRow) :
    ∀ tail : List Nat, decVotes vs.length (encVotes vs tail)
      = some (vs, tail) := by
  induction vs with
  | nil => intro tail; rfl
  | cons v vs ih =>
    intro tail
    show decVotes (vs.length + 1) (encVoteRow v ++ encVotes vs tail)
      = some (v :: vs, tail)
    simp only [decVotes]
    rw [decVoteRow_enc]
    show (match decVotes vs.length (encVotes vs tail) with
      | some (vs2, l2) => some (v :: vs2, l2)
      | none => none) = some (v :: vs, tail)
    rw [ih tail]

/-- The modelled byte image decodes back to exactly the tables it was
exported from. -/
theorem dbImport_dbExport (db : DBState) : dbImport (dbExport db) = some db := by
  show dbImport (db.plates.length ::
    encPlates db.plates (db.votes.length :: encVotes db.votes [])) = some db
  simp only [dbImport]
  rw [decPlates_enc db.plates (db.votes.length :: encVotes db.votes [])]
  simp only []
  rw [decVotes_enc db.votes []]

/-- Read-only leaderboard queries do not change the session state. -/
theorem runOps_queries : ∀ qs : List Op, QueriesOnly qs →
    ∀ s : Sys, runOps qs s = s := by
  intro qs
  induction qs with
  | nil => intro _ _; rfl
  | cons q qs ih =>
    intro hqs s
    have hq : q = Op.queryOp := hqs q (List.mem_cons_self q qs)
    have hstep : runOps (q :: qs) s = runOps qs (applyOp s q) := rfl
    rw [hstep, hq]
    exact ih (fun x hx => hqs x (List.mem_cons_of_mem q hx)) s

/-- The §8 scenario: vote `"abc 123"` +1, vote `"ABC123"` +1, vote
`"xyz999"` -1, from the empty store. -/
def scenarioOps : List Op :=
  [Op.vote (str "abc 123") 1, Op.vote (str "ABC123") 1,
   Op.vote (str "xyz999") (-1)]

/-- Claim C1: for every normalized plate string `p` and delta sequence
`d1..dn` with each delta in {+1,-1}, after applying the votes
sequentially via `addVote` from the empty store, the score of the
`plates` row for `p` (expressed as the sum over the matching rows, which
the primary key makes unique) equals `d1+...+dn`; and in every state
reached by valid public operations, each plate's score column equals the
sum of `value` over the `votes` rows with matching `plate_text`. -/
theorem score_eq_sum_of_deltas (p : List Nat) (ds : List Int)
    (ops : List Op) (t : List Nat) (hnorm : normalizePlate p = p)
    (hne : p ≠ []) (hds : ValidDeltas ds) (hops : ValidOps ops) :
    sumScores (runOps (ds.map (fun d => Op.vote p d)) initSys).db.plates p
      = ds.sum ∧
    sumScores (runOps ops initSys).db.plates t
      = sumVotes (runOps ops initSys).db.votes t := by
  constructor
  · have hvops : ValidOps (ds.map (fun d => Op.vote p d)) := by
      intro op hop
      rcases List.mem_map.1 hop with ⟨d, hdmem, rfl⟩
      simpa [validOp] using hds d hdmem
    have hg := goodDb_runOps (ds.map (fun d => Op.vote p d)) hvops initSys
      goodDb_fresh
    rw [hg.2.1 p, sumVotes_voteRun p hnorm hne ds hds initSys]
    show (0 : Int) + ds.sum = ds.sum
    ring
  · exact (goodDb_runOps ops hops initSys goodDb_fresh).2.1 t

/-- Witness for C1 at a concrete plate, delta list and operation list. -/
theorem score_eq_sum_of_deltas_witness :
    normalizePlate (str "AB12") = str "AB12" ∧ str "AB12" ≠ [] ∧
    ValidDeltas [1, 1, -1] ∧ ValidOps [Op.vote (str "AB12") 1] ∧
    (sumScores (runOps (([1, 1, -1] : List Int).map
          (fun d => Op.vote (str "AB12") d)) initSys).db.plates (str "AB12")
        = ([1, 1, -1] : List Int).sum ∧
      sumScores (runOps [Op.vote (str "AB12") 1] initSys).db.plates
          (str "AB12")
        = sumVotes (runOps [Op.vote (str "AB12") 1] initSys).db.votes
            (str "AB12")) :=
  ⟨by decide, by decide, by decide, by decide,
    score_eq_sum_of_deltas (str "AB12") [1, 1, -1] [Op.vote (str "AB12") 1]
      (str "AB12") (by decide) (by decide) (by decide) (by decide)⟩

/-- Claim C2 (counterexample): `addVote` with delta 5 on the empty store
throws the `ConstraintViolation`, but the `plates` table has gained a row
(score already 5) when it does — the claim's "aborts before any row is
written / row counts unchanged" is false. -/
theorem addVote_badDelta_writes_row :
    (addVote (str "AAA") 5 0 0 freshDb).2
        = some DbError.constraintViolation ∧
    (addVote (str "AAA") 5 0 0 freshDb).1.plates.length = 1 ∧
    freshDb.plates.length = 0 ∧
    sumScores (addVote (str "AAA") 5 0 0 freshDb).1.plates (str "AAA")
      = 5 := by decide

/-- Claim C2 (amended): `addVote` with a delta outside {+1,-1} (and a
non-empty normalized plate) fails with `ConstraintViolation` at the vote
insert; the `votes` table is unchanged, but by then the plates row has
been ensured and its score incremented by the delta — the partial
application is observable. -/
theorem addVote_badDelta_partial (p : List Nat) (d : Int) (vid now : Nat)
    (db : DBState) (hp : normalizePlate p ≠ []) (h1 : d ≠ 1)
    (h2 : d ≠ -1) :
    (addVote p d vid now db).2 = some DbError.constraintViolation ∧
    (addVote p d vid now db).1.votes = db.votes ∧
    (addVote p d vid now db).1.plates
      = updatePlates (normalizePlate p) d now
          (ensurePlateRow (normalizePlate p) now db).plates := by
  rw [addVote_badDelta p d vid now db hp (fun h => h.elim h1 h2)]
  exact ⟨rfl, rfl, rfl⟩

/-- Witness for the amended C2 at a concrete call. -/
theorem addVote_badDelta_partial_witness :
    normalizePlate (str "AAA") ≠ [] ∧ (5 : Int) ≠ 1 ∧ (5 : Int) ≠ -1 ∧
    ((addVote (str "AAA") 5 0 0 freshDb).2
        = some DbError.constraintViolation ∧
      (addVote (str "AAA") 5 0 0 freshDb).1.votes = freshDb.votes ∧
      (addVote (str "AAA") 5 0 0 freshDb).1.plates
        = updatePlates (normalizePlate (str "AAA")) 5 0
            (ensurePlateRow (normalizePlate (str "AAA")) 0
              freshDb).plates) :=
  ⟨by decide, by decide, by decide,
    addVote_badDelta_partial (str "AAA") 5 0 0 freshDb (by decide)
      (by decide) (by decide)⟩

/-- Claim C3 (counterexample): the §8 scenario does not produce
`[("ABC123", 2)]` — `"abc 123"` normalizes to `"ABC 123"` (trim keeps the
interior space), a distinct plate from `"ABC123"`. -/
theorem scenario_leaderboard_ne_claim :
    ¬(topPositive (runOps scenarioOps initSys).db = [(str "ABC123", 2)] ∧
      topNegative (runOps scenarioOps initSys).db
        = [(str "XYZ999", -1)]) := by decide

/-- Claim C3 (amended): the scenario yields the two tied positive plates
`("ABC 123", 1)` and `("ABC123", 1)` (insertion order on the tie) and
`topNegative(50) = [("XYZ999", -1)]`. -/
theorem scenario_leaderboard_eval :
    topPositive (runOps scenarioOps initSys).db
      = [(str "ABC 123", 1), (str "ABC123", 1)] ∧
    topNegative (runOps scenarioOps initSys).db
      = [(str "XYZ999", -1)] := by decide

/-- Claim C4: in every state reachable from the empty store by the public
operations with deltas in {+1,-1}, a `plates` row with a given
`plate_text` exists iff a `votes` row referencing that `plate_text`
exists. -/
theorem plate_row_iff_vote_row (ops : List Op) (t : List Nat)
    (hops : ValidOps ops) :
    (∃ r ∈ (runOps ops initSys).db.plates, r.plate_text = t) ↔
    (∃ v ∈ (runOps ops initSys).db.votes, v.plate_text = t) := by
  have hg := (goodDb_runOps ops hops initSys goodDb_fresh).2.2 t
  have h2 : ((runOps ops initSys).db.plates.any
        fun r => decide (r.plate_text = t)) = true ↔
      ((runOps ops initSys).db.votes.any
        fun v => decide (v.plate_text = t)) = true := by
    rw [hg]
  simpa [List.any_eq_true] using h2

/-- Witness for C4 at a concrete operation list and plate. -/
theorem plate_row_iff_vote_row_witness :
    ValidOps [Op.vote (str "QQ7") 1] ∧
    ((∃ r ∈ (runOps [Op.vote (str "QQ7") 1] initSys).db.plates,
        r.plate_text = str "QQ7") ↔
      (∃ v ∈ (runOps [Op.vote (str "QQ7") 1] initSys).db.votes,
        v.plate_text = str "QQ7")) :=
  ⟨by decide,
    plate_row_iff_vote_row [Op.vote (str "QQ7") 1] (str "QQ7") (by decide)⟩

/-- Claim C5: round-trip durability — opening the image written by
`persistDb` restores row-for-row identical `plates` and `votes` tables,
for any store state. -/
theorem persist_open_roundtrip (db : DBState) (blob : Blob) :
    initDbLoad (persistDb db blob).dbKey = BootDb.fromImage (some db) := by
  show BootDb.fromImage (dbImport (dbExport db)) = BootDb.fromImage (some db)
  rw [dbImport_dbExport]

/-- Claim C6: after `reset()` every subsequent leaderboard query is
empty, and opening the image persisted by the reset yields the empty
schema (zero rows in both tables). -/
theorem reset_then_empty (s : Sys) (qs : List Op)
    (hqs : QueriesOnly qs) :
    topPositive (runOps qs (applyOp s Op.resetOp)).db = [] ∧
    topNegative (runOps qs (applyOp s Op.resetOp)).db = [] ∧
    initDbLoad (runOps qs (applyOp s Op.resetOp)).blob.dbKey
      = BootDb.fromImage (some freshDb) ∧
    freshDb.plates = [] ∧ freshDb.votes = [] := by
  rw [runOps_queries qs hqs (applyOp s Op.resetOp)]
  refine ⟨rfl, rfl, ?_, rfl, rfl⟩
  show BootDb.fromImage (dbImport (dbExport freshDb))
    = BootDb.fromImage (some freshDb)
  rw [dbImport_dbExport]

/-- Witness for C6 at a concrete state and query list. -/
theorem reset_then_empty_witness :
    QueriesOnly [Op.queryOp] ∧
    (topPositive (runOps [Op.queryOp] (applyOp initSys Op.resetOp)).db
        = [] ∧
      topNegative (runOps [Op.queryOp] (applyOp initSys Op.resetOp)).db
        = [] ∧
      initDbLoad (runOps [Op.queryOp]
          (applyOp initSys Op.resetOp)).blob.dbKey
        = BootDb.fromImage (some freshDb) ∧
      freshDb.plates = [] ∧ freshDb.votes = []) :=
  ⟨by decide, reset_then_empty initSys [Op.queryOp] (by decide)⟩

/-- Claim C7: `addVote` on input that is empty after normalization throws
`"Plate required"` (the spec's `InvalidInput`) and leaves the store
completely unchanged. -/
theorem addVote_empty_rejected (p : List Nat) (d : Int) (vid now : Nat)
    (db : DBState) (hp : normalizePlate p = []) :
    (addVote p d vid now db).2 = some DbError.plateRequired ∧
    (addVote p d vid now db).1 = db := by
  rw [addVote_empty p d vid now db hp]
  exact ⟨rfl, rfl⟩

/-- Witness for C7 on a whitespace-only input. -/
theorem addVote_empty_rejected_witness :
    normalizePlate (str "  ") = [] ∧
    ((addVote (str "  ") 1 0 0 freshDb).2 = some DbError.plateRequired ∧
      (addVote (str "  ") 1 0 0 freshDb).1 = freshDb) :=
  ⟨by decide, addVote_empty_rejected (str "  ") 1 0 0 freshDb (by decide)⟩

/-- Claim C8: normalization (trim then upper-case) is idempotent for
every string, `" abc123 "` and `"ABC123"` normalize to the same plate
identifier, and votes for those two raw inputs accumulate on the same
single `plates` row. -/
theorem normalize_idem_and_identifies (s : List Nat) :
    normalizePlate (normalizePlate s) = normalizePlate s ∧
    normalizePlate (str " abc123 ") = normalizePlate (str "ABC123") ∧
    (addVote (str "ABC123") 1 1 1
        (addVote (str " abc123 ") 1 0 0 freshDb).1).1.plates
      = [⟨str "ABC123", 2, 1⟩] := by
  refine ⟨?_, by decide, by decide⟩
  show toUpperCase (trimStr (toUpperCase (trimStr s)))
    = toUpperCase (trimStr s)
  unfold toUpperCase
  rw [trimStr_map_upper, trimStr_idem, List.map_map]
  simp only [Function.comp_def, upperChar_idem]

/-- Claim C9 (counterexample): a byte-shaped but unparseable stored image
is handed to the relational engine rather than triggering the fresh
empty-schema fallback — `initDb` falls back only on values that are not
byte-shaped. -/
theorem corrupt_image_no_fallback :
    dbImport [5] = none ∧
    initDbLoad (some (SavedVal.bytes [5])) ≠ BootDb.freshInit := by decide

/-- Claim C9 (amended): at boot, an absent value or a value without a
usable byte shape falls back to fresh empty-schema creation (no crash);
any byte-shaped value — parseable or not — is opened through the engine
as-is, an unparseable one surfacing `CorruptImage` on first use instead
of being replaced by a fresh store. -/
theorem boot_fallback_on_shape_only :
    initDbLoad none = BootDb.freshInit ∧
    initDbLoad (some SavedVal.other) = BootDb.freshInit ∧
    (∀ b : List Nat, initDbLoad (some (SavedVal.bytes b))
        = BootDb.fromImage (dbImport b)) ∧
    (∀ b : List Nat, initDbLoad (some (SavedVal.bufferLike b))
        = BootDb.fromImage (dbImport b)) :=
  ⟨rfl, rfl, fun _ => rfl, fun _ => rfl⟩

/-- Claim C10: the reset handler writes only the database-image key of
the blob store; the user-profile key and the stored display name are
untouched, so a reset never signs the user out. -/
theorem reset_preserves_profile (s : Sys) :
    (applyOp s Op.resetOp).blob.userKey = s.blob.userKey ∧
    getUser (applyOp s Op.resetOp).blob = getUser s.blob ∧
    (applyOp s Op.resetOp).blob.dbKey
      = some (SavedVal.bytes (dbExport freshDb)) :=
  ⟨rfl, rfl, rfl⟩
